import Mathlib

/-!
# Verification of `extract_proposal.py`

A shallow embedding of the single-file pipeline `src/extract_proposal.py`
(PDF → text → model call → JSON parse → derived metrics → print/write),
together with proofs about the embedded definitions.

Modelling conventions:
* Python strings are Lean `String`s; character-level work happens on `String.data`
  (`List Char`), which matches Python's code-point view of `str`.
* Python's `json.loads` / `json.dumps` (the library calls made by the source) are
  embedded as an executable parser/serializer over an inductive `JValue`.
  JSON numbers are modelled as exact rationals (`ℚ`); Python's binary floats are
  a subset of the finite-decimal rationals, and the embedding tracks the
  finite-decimal side condition explicitly where serialization is involved.
  The modelled number grammar covers the forms the serializer emits
  (optional sign, integer part, optional fraction part; no exponent notation)
  and string escapes cover the single-character escapes (no \uXXXX forms).
* External capabilities (the PDF renderer, OCR, the model endpoint, the file
  system) are passed in as explicit data: a `Page` carries its text layer and
  the outcome of an OCR attempt, the model call is a function argument, and
  file writes are returned as an explicit list of (path, record) events.
* Fallible Python code is embedded with `Option`/`Except`; an uncaught Python
  exception is an `error` value.
-/

namespace ExtractProposal

/-- The whitespace characters Python's `json` scanner skips between tokens
(`' '`, `'\t'`, `'\n'`, `'\r'`). -/
def jsonWs (c : Char) : Bool :=
  c = ' ' || c = '\t' || c = '\n' || c = '\r'

/-- Whitespace for Python's `str.strip()` / `str.split()` (the ASCII whitespace
characters; the rare non-ASCII Unicode space code points are not modelled). -/
def pyWs (c : Char) : Bool :=
  c = ' ' || c = '\t' || c = '\n' || c = '\r' || c = '\x0b' || c = '\x0c'

/-- Skip leading JSON whitespace. -/
def skipWs (l : List Char) : List Char := l.dropWhile jsonWs

/-- Python `str.strip()`: drop whitespace from both ends. -/
def trimL (l : List Char) : List Char :=
  ((l.dropWhile pyWs).reverse.dropWhile pyWs).reverse

/-- ASCII lower-casing of one character, modelling the effect of Python's
`str.lower()` on the characters relevant here (ASCII letters; Korean and
punctuation are fixed points in both). -/
def asciiLower (c : Char) : Char :=
  if 'A' ≤ c && c ≤ 'Z' then Char.ofNat (c.toNat + 32) else c

/-- The backtick character (written via its code point). -/
def backtick : Char := Char.ofNat 96

/-- A structural JSON value: the universe of values Python's `json` module
moves between text and objects.  Numbers are exact rationals. -/
inductive JValue where
  | null : JValue
  | bool (b : Bool) : JValue
  | num (q : ℚ) : JValue
  | str (s : String) : JValue
  | arr (xs : List JValue) : JValue
  | obj (fields : List (String × JValue)) : JValue

/-- Is this value a JSON object? -/
def JValue.isObj : JValue → Bool
  | .obj _ => true
  | _ => false

/-! ## Decimal digits -/

/-- The character for a decimal digit value. -/
def digitChar (n : Nat) : Char := Char.ofNat (48 + n)

/-- Numeric value of a run of decimal digit characters (most significant first). -/
def natOfDigits (ds : List Char) : Nat :=
  ds.foldl (fun a c => 10 * a + (c.toNat - 48)) 0

/-- Fuelled most-significant-first decimal digits of a natural number. -/
def natDigsF : Nat → Nat → List Char
  | 0, _ => []
  | f + 1, n => if n < 10 then [digitChar n] else natDigsF f (n / 10) ++ [digitChar (n % 10)]

/-- Most-significant-first decimal digits of a natural number (never empty,
no leading zero except for `0` itself). -/
def natDigs (n : Nat) : List Char := natDigsF (n + 1) n

/-- Fuelled multiplicity of 2 in a natural number. -/
def mult2F : Nat → Nat → Nat
  | 0, _ => 0
  | f + 1, n => if n % 2 = 0 && n ≠ 0 then 1 + mult2F f (n / 2) else 0

/-- Fuelled multiplicity of 5 in a natural number. -/
def mult5F : Nat → Nat → Nat
  | 0, _ => 0
  | f + 1, n => if n % 5 = 0 && n ≠ 0 then 1 + mult5F f (n / 5) else 0

/-- The decimal exponent needed for a denominator: the least `k` with
`d ∣ 10 ^ k`, when `d` has only the prime factors 2 and 5. -/
def decExp (d : Nat) : Nat := max (mult2F d d) (mult5F d d)

/-- Does the rational have a finite decimal representation (equivalently, is it
exactly representable the way Python serializes its ints and floats)? -/
def finiteDec (q : ℚ) : Bool := decide (q.den ∣ 10 ^ decExp q.den)

/-- Digits of the non-negative value `n / d` (requiring `d ∣ 10 ^ decExp d`):
the scaled integer `n * (10 ^ k / d)` printed with a decimal point inserted
`k` digits from the right, zero-padded as needed. -/
def printNumParts (n d : Nat) : List Char :=
  let k := decExp d
  let m := n * (10 ^ k / d)
  if k = 0 then natDigs m
  else
    let ds := natDigs m
    let pad := List.replicate (k + 1 - ds.length) '0' ++ ds
    pad.take (pad.length - k) ++ '.' :: pad.drop (pad.length - k)

/-- Serialize a JSON number the way Python's `json.dumps` renders the exact
value of an int or (finite-decimal) float. -/
def printNum (q : ℚ) : List Char :=
  if q.num < 0 then '-' :: printNumParts q.num.natAbs q.den
  else printNumParts q.num.toNat q.den

/-! ## String escaping -/

/-- The escape sequence `json.dumps` emits for one character (identity for
characters needing no escape; `\uXXXX` forms for non-ASCII are not modelled —
the source writes its output with `ensure_ascii=False`, which leaves
non-ASCII characters literal, as here). -/
def escChar (c : Char) : List Char :=
  if c = '"' then ['\\', '"']
  else if c = '\\' then ['\\', '\\']
  else if c = '\n' then ['\\', 'n']
  else if c = '\t' then ['\\', 't']
  else if c = '\r' then ['\\', 'r']
  else if c = '\x08' then ['\\', 'b']
  else if c = '\x0c' then ['\\', 'f']
  else [c]

/-- Escape a whole string body. -/
def escapeL : List Char → List Char
  | [] => []
  | c :: t => escChar c ++ escapeL t

/-- A serialized JSON string literal: quote, escaped body, quote. -/
def printStr (s : List Char) : List Char :=
  '"' :: (escapeL s ++ ['"'])

/-- The character named by a one-character JSON escape. -/
def unescape (c : Char) : Option Char :=
  if c = '"' then some '"'
  else if c = '\\' then some '\\'
  else if c = '/' then some '/'
  else if c = 'n' then some '\n'
  else if c = 't' then some '\t'
  else if c = 'r' then some '\r'
  else if c = 'b' then some '\x08'
  else if c = 'f' then some '\x0c'
  else none

/-- Parse a JSON string body after the opening quote: returns the decoded
characters and the input after the closing quote. -/
def parseStrBody : List Char → Option (List Char × List Char)
  | [] => none
  | c :: t =>
    if c = '"' then some ([], t)
    else if c = '\\' then
      match t with
      | [] => none
      | e :: t2 =>
        match unescape e, parseStrBody t2 with
        | some d, some (s, r) => some (d :: s, r)
        | _, _ => none
    else
      match parseStrBody t with
      | some (s, r) => some (c :: s, r)
      | none => none

/-- The keyword token of the JSON literal `null`. -/
def kwNull : List Char := ['n', 'u', 'l', 'l']

/-- The keyword token of the JSON literal `true`. -/
def kwTrue : List Char := ['t', 'r', 'u', 'e']

/-- The keyword token of the JSON literal `false`. -/
def kwFalse : List Char := ['f', 'a', 'l', 's', 'e']

/-! ## Serializing values

`json.dumps` with the default separators: `", "` between items, `": "` after
keys, no spaces inside the brackets. -/

mutual

/-- Serialize one JSON value (Python `json.dumps` with default separators). -/
def printVal : JValue → List Char
  | .null => kwNull
  | .bool true => kwTrue
  | .bool false => kwFalse
  | .num q => printNum q
  | .str s => printStr s.data
  | .arr xs => '[' :: (printItems xs ++ [']'])
  | .obj xs => '\x7b' :: (printFields xs ++ ['\x7d'])

/-- Serialize array items, `", "`-separated. -/
def printItems : List JValue → List Char
  | [] => []
  | [x] => printVal x
  | x :: xs => printVal x ++ ',' :: ' ' :: printItems xs

/-- Serialize object members, `", "`-separated, `": "` after each key. -/
def printFields : List (String × JValue) → List Char
  | [] => []
  | [(k, v)] => printStr k.data ++ ':' :: ' ' :: printVal v
  | (k, v) :: xs => printStr k.data ++ ':' :: ' ' :: printVal v ++ ',' :: ' ' :: printFields xs

end

/-- `json.dumps(x)` (default separators, `ensure_ascii=False`). -/
def dumps (v : JValue) : String := ⟨printVal v⟩

/-! ## Parsing values -/

/-- Parse an unsigned JSON number as a scaled pair `(numerator, denominator)`. -/
def parseNumNN (l : List Char) : Option ((Nat × Nat) × List Char) :=
  let ds := l.takeWhile Char.isDigit
  let l2 := l.dropWhile Char.isDigit
  if ds.isEmpty then none
  else if l2.head? = some '.' then
    let fs := l2.tail.takeWhile Char.isDigit
    let l3 := l2.tail.dropWhile Char.isDigit
    if fs.isEmpty then none
    else some ((natOfDigits ds * 10 ^ fs.length + natOfDigits fs, 10 ^ fs.length), l3)
  else some ((natOfDigits ds, 1), l2)

/-- Parse a JSON number: optional minus sign, digit run, optional fraction. -/
def parseNum (l : List Char) : Option (ℚ × List Char) :=
  if l.head? = some '-' then
    (parseNumNN l.tail).map (fun p => (mkRat (-(p.1.1 : Int)) p.1.2, p.2))
  else (parseNumNN l).map (fun p => (mkRat (p.1.1 : Int) p.1.2, p.2))

mutual

/-- Fuelled recursive-descent parser for one JSON value, skipping leading
whitespace; returns the value and the unconsumed input. -/
def parseVal : Nat → List Char → Option (JValue × List Char)
  | 0, _ => none
  | f + 1, l =>
    let s := skipWs l
    if s.take 4 = kwNull then some (.null, s.drop 4)
    else if s.take 4 = kwTrue then some (.bool true, s.drop 4)
    else if s.take 5 = kwFalse then some (.bool false, s.drop 5)
    else if s.head? = some '"' then
      match parseStrBody s.tail with
      | some (c, r2) => some (.str ⟨c⟩, r2)
      | none => none
    else if s.head? = some '[' then
      let r1 := skipWs s.tail
      if r1.head? = some ']' then some (.arr [], r1.tail)
      else
        match parseItems f r1 with
        | some (xs, r3) => some (.arr xs, r3)
        | none => none
    else if s.head? = some '\x7b' then
      let r1 := skipWs s.tail
      if r1.head? = some '\x7d' then some (.obj [], r1.tail)
      else
        match parseMembers f r1 with
        | some (xs, r3) => some (.obj xs, r3)
        | none => none
    else
      match parseNum s with
      | some (q, r2) => some (.num q, r2)
      | none => none

/-- Parse the items of a non-empty array up to and including `]`. -/
def parseItems : Nat → List Char → Option (List JValue × List Char)
  | 0, _ => none
  | f + 1, l =>
    match parseVal f l with
    | none => none
    | some (v, r) =>
      match skipWs r with
      | ',' :: r2 =>
        match parseItems f r2 with
        | some (xs, r3) => some (v :: xs, r3)
        | none => none
      | ']' :: r2 => some ([v], r2)
      | _ => none

/-- Parse the members of a non-empty object up to and including the closing
brace. -/
def parseMembers : Nat → List Char → Option (List (String × JValue) × List Char)
  | 0, _ => none
  | f + 1, l =>
    match skipWs l with
    | '"' :: r =>
      match parseStrBody r with
      | none => none
      | some (k, r1) =>
        match skipWs r1 with
        | ':' :: r2 =>
          match parseVal f r2 with
          | none => none
          | some (v, r3) =>
            match skipWs r3 with
            | ',' :: r4 =>
              match parseMembers f r4 with
              | some (xs, r5) => some ((⟨k⟩, v) :: xs, r5)
              | none => none
            | '\x7d' :: r4 => some ([(⟨k⟩, v)], r4)
            | _ => none
        | _ => none
    | _ => none

end

/-- `json.loads`: parse one value and require only whitespace to remain. -/
def jsonLoads (l : List Char) : Option JValue :=
  match parseVal (l.length + 1) l with
  | some (v, r) => if (skipWs r).isEmpty then some v else none
  | none => none

/-- A list is a valid continuation after a serialized number: empty, or not
starting with a digit or a dot (so the number's digit run ends exactly where
the serializer ended it). -/
def numStop : List Char → Bool
  | [] => true
  | c :: _ => !(c.isDigit || c = '.')

mutual

/-- Every number in the value has a finite decimal representation — the
condition under which the embedded serializer writes its exact value (true
of every value Python's `json.dumps` can produce, since Python ints and
binary floats are finite-decimal). -/
def decOKVal : JValue → Bool
  | .null => true
  | .bool _ => true
  | .num q => finiteDec q
  | .str _ => true
  | .arr xs => decOKList xs
  | .obj xs => decOKFields xs

/-- `decOKVal` over the elements of an array. -/
def decOKList : List JValue → Bool
  | [] => true
  | x :: xs => decOKVal x && decOKList xs

/-- `decOKVal` over the values of an object. -/
def decOKFields : List (String × JValue) → Bool
  | [] => true
  | (_, v) :: xs => decOKVal v && decOKFields xs

end

/-- The characters a serialized JSON value can start with. -/
def goodHead (c : Char) : Bool :=
  c.isDigit || c = '-' || c = 'n' || c = 't' || c = 'f' || c = '"' || c = '[' || c = '\x7b'

/-! ## `safe_json_loads` (source lines 55-61) -/

/-- Does the list start (case-insensitively) with the given lowercase pattern? -/
def startsWithCI (pat l : List Char) : Bool :=
  (l.take pat.length).map asciiLower == pat

/-- One pass of `re.sub(r"` ``` `json\s*|` ``` `", "", s, flags=re.I)`: scan left to
right; at each position prefer removing a backtick-backtick-backtick-`json`
marker together with the whitespace run after it, else remove a bare triple
backtick, else keep the character.  Fuelled by the input length. -/
def fenceStripF : Nat → List Char → List Char
  | 0, l => l
  | _ + 1, [] => []
  | f + 1, c :: t =>
    if startsWithCI [backtick, backtick, backtick, 'j', 's', 'o', 'n'] (c :: t) then
      fenceStripF f (((c :: t).drop 7).dropWhile pyWs)
    else if (c :: t).take 3 == [backtick, backtick, backtick] then
      fenceStripF f ((c :: t).drop 3)
    else
      c :: fenceStripF f t

/-- Strip code-fence markers from the text (the regex substitution of
source line 58). -/
def fenceStrip (l : List Char) : List Char := fenceStripF l.length l

/-- Source line 59-60: if both braces appear, slice from the first opening
brace to the last closing brace inclusive (`s[s.find("..."): s.rfind("...") + 1]`). -/
def braceSlice (l : List Char) : List Char :=
  if l.contains '\x7b' && l.contains '\x7d' then
    let i := l.findIdx (· = '\x7b')
    let j := l.length - 1 - l.reverse.findIdx (· = '\x7d')
    (l.take (j + 1)).drop i
  else l

/-- `safe_json_loads` on the character list: trim, strip fences when the text
starts with a triple backtick (re-trimming, as the source does), brace-slice,
then `json.loads`.  `none` models the `json.JSONDecodeError` escaping. -/
def safeJsonLoadsL (l : List Char) : Option JValue :=
  let s1 := trimL l
  let s2 := if s1.take 3 == [backtick, backtick, backtick] then trimL (fenceStrip s1) else s1
  jsonLoads (braceSlice s2)

/-- Source `safe_json_loads(s)`: recover and parse the JSON payload embedded in
a possibly noisy model response. -/
def safe_json_loads (s : String) : Option JValue := safeJsonLoadsL s.data

/-! ## Records -/

/-- The parsed extraction record: an insertion-ordered key/value mapping, the
embedding of the Python `dict` the pipeline manipulates. -/
abbrev Record := List (String × JValue)

/-- Dictionary lookup. -/
def getVal (k : String) : Record → Option JValue
  | [] => none
  | (k2, v) :: t => if k2 = k then some v else getVal k t

/-- Dictionary item assignment `js[k] = v`: replace in place when the key is
present, append otherwise (Python dict update semantics). -/
def setKey (k : String) (v : JValue) : Record → Record
  | [] => [(k, v)]
  | (k2, v2) :: t => if k2 = k then (k, v) :: t else (k2, v2) :: setKey k v t

/-! ## Text statistics (`postprocess`, source lines 82-91) -/

/-- Fuelled non-overlapping substring count (Python `str.count` with a
non-empty pattern). -/
def countSubF : Nat → List Char → List Char → Nat
  | 0, _, _ => 0
  | f + 1, hay, pat =>
    if pat.isPrefixOf hay then 1 + countSubF f (hay.drop pat.length) pat
    else
      match hay with
      | [] => 0
      | _ :: t => countSubF f t pat

/-- Python `str.count`: non-overlapping occurrences, scanning left to right
(for the empty pattern Python returns `len + 1`). -/
def countSub (hay pat : List Char) : Nat :=
  if pat.isEmpty then hay.length + 1 else countSubF hay.length hay pat

/-- Helper for `wordCount`: the flag records whether the previous character
was part of a word. -/
def wcAux : Bool → List Char → Nat
  | _, [] => 0
  | inw, c :: t => if pyWs c then wcAux false t else (if inw then 0 else 1) + wcAux true t

/-- `len(s.split())`: the number of maximal whitespace-free runs. -/
def wordCount (l : List Char) : Nat := wcAux false l

/-- Round-half-to-even of the fraction `n / d` (`d > 0`): the integer Python's
`round` picks. -/
def roundHalfEven (n : Int) (d : Nat) : Int :=
  let q := n.ediv d
  let r := n.emod d
  if 2 * r < d then q else if (d : Int) < 2 * r then q + 1 else if q % 2 = 0 then q else q + 1

/-- `round(a / b, 2)` for naturals with `b > 0`, as an exact rational:
banker's rounding of `a / b` to a multiple of 1/100.  (The float
representation error of Python's intermediate division is not modelled;
the arithmetic is exact.) -/
def pyRound2Frac (a b : Nat) : ℚ := mkRat (roundHalfEven (100 * a) b) 100

/-- The "technology" keyword set of source line 87. -/
def techWords : List String := ["특허", "시제품", "TRL", "prototype", "성능"]

/-- The "business" keyword set of source line 88. -/
def bizWords : List String := ["시장", "매출", "고객", "ROI", "판로"]

/-- The five keys `postprocess` always writes. -/
def derivedKeys : List String :=
  ["readability_score", "diagram_cnt", "summary_len_chars", "tech_market_balance",
   "logical_consistency"]

/-- Source `postprocess(raw, js)` (lines 82-91): overwrite the five derived
metric fields computed from the raw text. -/
def postprocess (raw : String) (js : Record) : Record :=
  let r := raw.data
  let sent := max (countSub r ['.']) 1
  let js1 := setKey "readability_score" (.num (pyRound2Frac (wordCount r) sent)) js
  let low := r.map asciiLower
  let js2 := setKey "diagram_cnt"
    (.num ((countSub low "figure".data + countSub low "표".data : Nat) : ℚ)) js1
  let js3 := setKey "summary_len_chars" (.num (((r.take 1000).length : Nat) : ℚ)) js2
  let tech := (techWords.map (fun w => countSub r w.data)).sum
  let biz := (bizWords.map (fun w => countSub r w.data)).sum
  let js4 := setKey "tech_market_balance" (.num (pyRound2Frac tech (biz + 1))) js3
  setKey "logical_consistency" .null js4

/-! ## `pdf_to_text` (source lines 14-29) -/

/-- One page of the input document: the text layer the renderer extracts, and
the outcome of the OCR attempt for that page (`error` models `pytesseract`
or the rasterization raising). -/
structure Page where
  text : String
  ocr : Except Unit String

/-- The page's contribution to the joined text: the text layer when non-blank,
else the OCR output, else the empty string (the `except` branch of
source lines 27-28). -/
def pageContribution (p : Page) : String :=
  if (trimL p.text.data).isEmpty then
    match p.ocr with
    | .ok t => t
    | .error _ => ""
  else p.text

/-- Source `pdf_to_text`: newline-join the per-page contributions in order. -/
def pdf_to_text (pages : List Page) : String :=
  String.intercalate "\n" (pages.map pageContribution)

/-! ## The pipeline (`gpt_extract`, `extract`; source lines 64-105) -/

/-- The field names of the JSON schema template embedded in `SYSTEM_PROMPT`
(source lines 36-51), in template order.  Note the template names 35 fields,
not 29. -/
def schemaKeys : List String :=
  ["title", "agency", "year", "company_name",
   "problem_text", "problem_metrics",
   "solution_text", "roadmap_present", "roadmap_outline",
   "patent_cnt", "patent_details",
   "paper_cnt", "paper_refs",
   "prototype_present", "test_results",
   "similar_case_cnt", "similar_case_summary",
   "market_size", "market_growth", "competitive_edge",
   "expected_revenue", "breakeven_year", "roi_pct",
   "core_members", "prior_projects", "infrastructure_summary",
   "regulatory_ready", "external_investment",
   "risk_mitigation_present", "policy_alignment",
   "readability_score", "diagram_cnt", "summary_len_chars",
   "tech_market_balance", "logical_consistency"]

/-- `text[:12000]` (source line 65). -/
def truncate12k (s : String) : String := ⟨s.data.take 12000⟩

/-- The failures that can abort a run. -/
inductive PipeError where
  | ioError : PipeError
  | modelError : PipeError
  | parseError : PipeError
  | typeError : PipeError

/-- Source `gpt_extract(text)`: truncate the text, invoke the model capability
(passed in as `callModel`, receiving the truncated user content), and parse
its response with `safe_json_loads`.  The diagnostic print of lines 76-78 has
no effect on the result and is not modelled. -/
def gpt_extract (callModel : String → Except Unit String) (text : String) :
    Except PipeError JValue :=
  match callModel (truncate12k text) with
  | .error _ => .error .modelError
  | .ok content =>
    match safe_json_loads content with
    | some v => .ok v
    | none => .error .parseError

/-- Source `extract(pdf_path, out_json)` (lines 94-105).  The document read is
passed in as `doc` (`error` models `fitz.open`/page rendering raising); the
result is the final record together with the list of file-write events
`(path, record written)` the run performed — the write happens only on the
success path, after parsing and `postprocess`.  A parsed response that is not
a JSON object makes the item assignments in `postprocess` raise `TypeError`
in Python; that is the `typeError` branch. -/
def extract (doc : Except Unit (List Page)) (callModel : String → Except Unit String)
    (outJson : Option String) : Except PipeError Record × List (String × Record) :=
  match doc with
  | .error _ => (.error .ioError, [])
  | .ok pages =>
    let raw := pdf_to_text pages
    match gpt_extract callModel raw with
    | .error e => (.error e, [])
    | .ok (.obj fields) =>
      let data := postprocess raw fields
      (.ok data,
        match outJson with
        | some p => [(p, data)]
        | none => [])
    | .ok _ => (.error .typeError, [])

/-! ## Record lemmas -/

theorem getVal_setKey_same (k : String) (v : JValue) (m : Record) :
    getVal k (setKey k v m) = some v := by
  induction m with
  | nil => simp [setKey, getVal]
  | cons a t ih =>
    obtain ⟨k2, v2⟩ := a
    by_cases h : k2 = k
    · subst h
      simp [setKey, getVal]
    · simp [setKey, getVal, h, ih]

theorem getVal_setKey_other {k k2 : String} (h : k ≠ k2) (v : JValue) (m : Record) :
    getVal k2 (setKey k v m) = getVal k2 m := by
  induction m with
  | nil => simp [setKey, getVal, h]
  | cons a t ih =>
    obtain ⟨k3, v3⟩ := a
    by_cases h2 : k3 = k
    · subst h2
      simp [setKey, getVal, h]
    · simp [setKey, getVal, h2, ih]

/-! ## What `postprocess` writes, key by key -/

theorem pp_readability (raw : String) (js : Record) :
    getVal "readability_score" (postprocess raw js)
      = some (.num (pyRound2Frac (wordCount raw.data) (max (countSub raw.data ['.']) 1))) := by
  simp only [postprocess]
  rw [getVal_setKey_other (by decide : ("logical_consistency" : String) ≠ "readability_score"),
    getVal_setKey_other (by decide : ("tech_market_balance" : String) ≠ "readability_score"),
    getVal_setKey_other (by decide : ("summary_len_chars" : String) ≠ "readability_score"),
    getVal_setKey_other (by decide : ("diagram_cnt" : String) ≠ "readability_score"),
    getVal_setKey_same]

theorem pp_diagram (raw : String) (js : Record) :
    getVal "diagram_cnt" (postprocess raw js)
      = some (.num ((countSub (raw.data.map asciiLower) "figure".data
          + countSub (raw.data.map asciiLower) "표".data : Nat) : ℚ)) := by
  simp only [postprocess]
  rw [getVal_setKey_other (by decide : ("logical_consistency" : String) ≠ "diagram_cnt"),
    getVal_setKey_other (by decide : ("tech_market_balance" : String) ≠ "diagram_cnt"),
    getVal_setKey_other (by decide : ("summary_len_chars" : String) ≠ "diagram_cnt"),
    getVal_setKey_same]

theorem pp_summary (raw : String) (js : Record) :
    getVal "summary_len_chars" (postprocess raw js)
      = some (.num (((raw.data.take 1000).length : Nat) : ℚ)) := by
  simp only [postprocess]
  rw [getVal_setKey_other (by decide : ("logical_consistency" : String) ≠ "summary_len_chars"),
    getVal_setKey_other (by decide : ("tech_market_balance" : String) ≠ "summary_len_chars"),
    getVal_setKey_same]

theorem pp_balance (raw : String) (js : Record) :
    getVal "tech_market_balance" (postprocess raw js)
      = some (.num (pyRound2Frac ((techWords.map fun w => countSub raw.data w.data).sum)
          ((bizWords.map fun w => countSub raw.data w.data).sum + 1))) := by
  simp only [postprocess]
  rw [getVal_setKey_other (by decide : ("logical_consistency" : String) ≠ "tech_market_balance"),
    getVal_setKey_same]

theorem pp_logical (raw : String) (js : Record) :
    getVal "logical_consistency" (postprocess raw js) = some .null := by
  simp only [postprocess]
  rw [getVal_setKey_same]

theorem pp_frame (raw : String) (js : Record) (k : String) (h : k ∉ derivedKeys) :
    getVal k (postprocess raw js) = getVal k js := by
  simp only [derivedKeys, List.mem_cons, List.not_mem_nil, or_false, not_or] at h
  obtain ⟨h1, h2, h3, h4, h5⟩ := h
  simp only [postprocess]
  rw [getVal_setKey_other (Ne.symm h5), getVal_setKey_other (Ne.symm h4),
    getVal_setKey_other (Ne.symm h3), getVal_setKey_other (Ne.symm h2),
    getVal_setKey_other (Ne.symm h1)]

/-! ## Claim theorems -/

/-- C1 (counterexample): the input `"42"` contains no recoverable JSON object
(no braces to slice, no fence), yet `safe_json_loads` does not fail: it
returns the non-object JSON value `42`. -/
theorem safe_json_loads_nonobject_counterexample :
    safe_json_loads "42" = some (JValue.num 42) ∧ (JValue.num 42).isObj = false :=
  ⟨rfl, rfl⟩

/-- C1 (amended): when the recovered text is not syntactically valid JSON,
`safe_json_loads` fails with a parse error — in particular it fails on
`"not json at all"` and never silently substitutes a default — but a
syntactically valid non-object payload such as `"42"` is returned as a value
rather than rejected. -/
theorem safe_json_loads_parse_failure :
    safe_json_loads "not json at all" = none
      ∧ safe_json_loads "42" = some (JValue.num 42) :=
  ⟨rfl, rfl⟩

/-- C2 (counterexample): a run that completes successfully (stubbed model
response containing only a `"title"` key) yields a final record missing the
schema key `"agency"`; moreover the schema template actually names 35 fields,
not 29. -/
theorem schema_presence_counterexample :
    (extract (.ok [⟨"hello world", .error ()⟩])
        (fun _ => .ok "\x7b\"title\": \"x\"\x7d") none).1
      = .ok (postprocess "hello world" [("title", JValue.str "x")]) ∧
    "agency" ∈ schemaKeys ∧
    getVal "agency" (postprocess "hello world" [("title", JValue.str "x")]) = none ∧
    schemaKeys.length = 35 :=
  ⟨rfl, by decide, rfl, rfl⟩

/-- C2 (amended): a successful run only guarantees the presence of the five
derived keys in the final record; the remaining schema keys are present only
if the model response supplied them (nothing in the code validates that). -/
theorem extract_success_has_derived_keys
    (doc : Except Unit (List Page)) (callModel : String → Except Unit String)
    (outJson : Option String) (rec : Record) (w : List (String × Record))
    (h : extract doc callModel outJson = (.ok rec, w)) :
    ∀ k ∈ derivedKeys, (getVal k rec).isSome = true := by
  cases doc with
  | error u => simp [extract] at h
  | ok pages =>
    simp only [extract] at h
    cases hg : gpt_extract callModel (pdf_to_text pages) with
    | error e => rw [hg] at h; simp at h
    | ok v =>
      rw [hg] at h
      cases v with
      | obj fields =>
        simp only [Prod.mk.injEq, Except.ok.injEq] at h
        obtain ⟨rfl, -⟩ := h
        intro k hk
        simp only [derivedKeys, List.mem_cons, List.not_mem_nil, or_false] at hk
        rcases hk with rfl | rfl | rfl | rfl | rfl
        · rw [pp_readability]; rfl
        · rw [pp_diagram]; rfl
        · rw [pp_summary]; rfl
        · rw [pp_balance]; rfl
        · rw [pp_logical]; rfl
      | null => simp at h
      | bool b => simp at h
      | num q => simp at h
      | str s => simp at h
      | arr xs => simp at h

/-- Witness for C2 (amended) at a concrete successful run. -/
theorem extract_success_has_derived_keys_witness :
    (getVal "logical_consistency"
      (postprocess "hello world" [("title", JValue.str "x")])).isSome = true :=
  extract_success_has_derived_keys (.ok [⟨"hello world", .error ()⟩])
    (fun _ => .ok "\x7b\"title\": \"x\"\x7d") none _ _ rfl
    "logical_consistency" (by decide)

/-- C3: `postprocess` overwrites exactly the five derived keys with the values
computed from the raw text, and leaves the value of every other key
unchanged. -/
theorem postprocess_sets_exactly_derived (raw : String) (js : Record) :
    (∀ k, k ∉ derivedKeys → getVal k (postprocess raw js) = getVal k js) ∧
    getVal "readability_score" (postprocess raw js)
      = some (.num (pyRound2Frac (wordCount raw.data) (max (countSub raw.data ['.']) 1))) ∧
    getVal "diagram_cnt" (postprocess raw js)
      = some (.num ((countSub (raw.data.map asciiLower) "figure".data
          + countSub (raw.data.map asciiLower) "표".data : Nat) : ℚ)) ∧
    getVal "summary_len_chars" (postprocess raw js)
      = some (.num (((raw.data.take 1000).length : Nat) : ℚ)) ∧
    getVal "tech_market_balance" (postprocess raw js)
      = some (.num (pyRound2Frac ((techWords.map fun w => countSub raw.data w.data).sum)
          ((bizWords.map fun w => countSub raw.data w.data).sum + 1))) ∧
    getVal "logical_consistency" (postprocess raw js) = some .null :=
  ⟨fun k h => pp_frame raw js k h, pp_readability raw js, pp_diagram raw js,
    pp_summary raw js, pp_balance raw js, pp_logical raw js⟩

/-- Witness for C3: a key outside the derived five is untouched. -/
theorem postprocess_sets_exactly_derived_witness :
    getVal "title" (postprocess "x" [("title", JValue.str "t")])
      = getVal "title" [("title", JValue.str "t")] :=
  (postprocess_sets_exactly_derived "x" [("title", JValue.str "t")]).1 "title" (by decide)

/-- C5: `safe_json_loads` recovers the embedded object from a code-fenced
wrapper and from leading/trailing prose. -/
theorem safe_json_loads_tolerates_wrappers :
    safe_json_loads "\x60\x60\x60json\n\x7b\"a\":1\x7d\n\x60\x60\x60"
        = some (.obj [("a", JValue.num 1)]) ∧
    safe_json_loads "Here you go:\n\x7b\"a\":1\x7d\nThanks."
        = some (.obj [("a", JValue.num 1)]) :=
  ⟨rfl, rfl⟩

/-- C6: `readability_score` is the whitespace-token count divided by
`max(count of ".", 1)`, rounded to two decimals; with zero dots and ten words
the stored value is exactly 10. -/
theorem readability_score_formula (raw : String) (js : Record) :
    getVal "readability_score" (postprocess raw js)
      = some (.num (pyRound2Frac (wordCount raw.data) (max (countSub raw.data ['.']) 1))) ∧
    (countSub raw.data ['.'] = 0 → wordCount raw.data = 10 →
      getVal "readability_score" (postprocess raw js) = some (.num 10)) := by
  refine ⟨pp_readability raw js, fun h0 h10 => ?_⟩
  rw [pp_readability raw js, h0, h10]
  have h : pyRound2Frac 10 (max 0 1) = 10 := by decide
  rw [h]

/-- Witness for C6 at a ten-word, zero-dot text. -/
theorem readability_score_formula_witness :
    getVal "readability_score" (postprocess "a b c d e f g h i j" [])
      = some (.num 10) :=
  (readability_score_formula "a b c d e f g h i j" []).2 rfl rfl

/-- C7: `tech_market_balance` is the technology-keyword occurrence total over
the business-keyword occurrence total plus one, rounded to two decimals; with
one technology hit and two business hits the stored value is 0.33. -/
theorem tech_market_balance_formula (raw : String) (js : Record) :
    getVal "tech_market_balance" (postprocess raw js)
      = some (.num (pyRound2Frac ((techWords.map fun w => countSub raw.data w.data).sum)
          ((bizWords.map fun w => countSub raw.data w.data).sum + 1))) ∧
    ((techWords.map fun w => countSub raw.data w.data).sum = 1 →
      (bizWords.map fun w => countSub raw.data w.data).sum = 2 →
      getVal "tech_market_balance" (postprocess raw js) = some (.num 0.33)) := by
  refine ⟨pp_balance raw js, fun ht hb => ?_⟩
  rw [pp_balance raw js, ht, hb]
  have h1 : pyRound2Frac 1 (2 + 1) = mkRat 33 100 := by decide
  have h2 : mkRat 33 100 = 0.33 := by norm_num
  rw [h1, h2]

/-- Witness for C7 at a text with "시장" twice and "특허" once. -/
theorem tech_market_balance_formula_witness :
    getVal "tech_market_balance" (postprocess "시장 시장 특허" [])
      = some (.num 0.33) :=
  (tech_market_balance_formula "시장 시장 특허" []).2 rfl rfl

/-- C8: `postprocess` is total (it is a function; both divisions have positive
denominators) and the five derived values depend only on the raw text, not on
the incoming record. -/
theorem postprocess_total_deterministic (raw : String) (js : Record) :
    0 < max (countSub raw.data ['.']) 1 ∧
    0 < (bizWords.map fun w => countSub raw.data w.data).sum + 1 ∧
    ∀ js2 : Record, ∀ k ∈ derivedKeys,
      getVal k (postprocess raw js) = getVal k (postprocess raw js2) := by
  refine ⟨Nat.lt_of_lt_of_le Nat.zero_lt_one (Nat.le_max_right _ _), Nat.succ_pos _,
    fun js2 k hk => ?_⟩
  simp only [derivedKeys, List.mem_cons, List.not_mem_nil, or_false] at hk
  rcases hk with rfl | rfl | rfl | rfl | rfl
  · rw [pp_readability raw js, pp_readability raw js2]
  · rw [pp_diagram raw js, pp_diagram raw js2]
  · rw [pp_summary raw js, pp_summary raw js2]
  · rw [pp_balance raw js, pp_balance raw js2]
  · rw [pp_logical raw js, pp_logical raw js2]

/-- Witness for C8: the derived keys agree across two different records. -/
theorem postprocess_total_deterministic_witness :
    getVal "diagram_cnt" (postprocess "x" [])
      = getVal "diagram_cnt" (postprocess "x" [("a", JValue.null)]) :=
  (postprocess_total_deterministic "x" []).2.2 [("a", JValue.null)] "diagram_cnt" (by decide)

/-- C9: a page whose extracted text is blank and whose OCR attempt raises
contributes the empty string to the newline-joined output, and the join still
happens (the run does not abort). -/
theorem ocr_failure_contributes_empty (p : Page)
    (h1 : (trimL p.text.data).isEmpty = true) (h2 : p.ocr = .error ()) :
    pageContribution p = "" ∧
    ∀ pre post : List Page,
      pdf_to_text (pre ++ p :: post)
        = String.intercalate "\n"
            (pre.map pageContribution ++ "" :: post.map pageContribution) := by
  have hc : pageContribution p = "" := by
    simp [pageContribution, h1, h2]
  exact ⟨hc, fun pre post => by simp [pdf_to_text, hc]⟩

/-- Witness for C9 at a whitespace-only page with failing OCR. -/
theorem ocr_failure_contributes_empty_witness :
    pageContribution ⟨"  ", .error ()⟩ = "" :=
  (ocr_failure_contributes_empty ⟨"  ", .error ()⟩ rfl rfl).1

/-- C10: when the run fails in any stage before serialization, no file write
event occurs: `extract` opens the output only on the success path. -/
theorem extract_error_no_writes (doc : Except Unit (List Page))
    (callModel : String → Except Unit String) (outJson : Option String)
    (e : PipeError) (h : (extract doc callModel outJson).1 = .error e) :
    (extract doc callModel outJson).2 = [] := by
  cases doc with
  | error u => rfl
  | ok pages =>
    simp only [extract] at h ⊢
    cases hg : gpt_extract callModel (pdf_to_text pages) with
    | error e2 => rfl
    | ok v =>
      cases v with
      | obj fields => simp [hg] at h
      | null => rfl
      | bool b => rfl
      | num q => rfl
      | str s => rfl
      | arr xs => rfl

/-- Witness for C10: a failing document read produces no write event. -/
theorem extract_error_no_writes_witness :
    (extract (.error ()) (fun _ => .ok "") (some "out.json")).2 = [] :=
  extract_error_no_writes (.error ()) (fun _ => .ok "") (some "out.json") .ioError rfl

/-! ## Character facts -/

theorem ne_of_isDigit {c : Char} (d : Char) (h : c.isDigit = true) (hd : d.isDigit = false) :
    c ≠ d := by
  intro he
  rw [he, hd] at h
  exact Bool.false_ne_true h

theorem isDigit_not_jsonWs {c : Char} (h : c.isDigit = true) : jsonWs c = false := by
  have h1 := ne_of_isDigit ' ' h (by decide)
  have h2 := ne_of_isDigit '\t' h (by decide)
  have h3 := ne_of_isDigit '\n' h (by decide)
  have h4 := ne_of_isDigit '\r' h (by decide)
  simp [jsonWs, h1, h2, h3, h4]

theorem goodHead_not_jsonWs {c : Char} (h : goodHead c = true) : jsonWs c = false := by
  simp only [goodHead, Bool.or_eq_true, decide_eq_true_eq] at h
  rcases h with ((((((hd | rfl) | rfl) | rfl) | rfl) | rfl) | rfl) | rfl
  · exact isDigit_not_jsonWs hd
  all_goals decide

theorem goodHead_ne_rbrack {c : Char} (h : goodHead c = true) : c ≠ ']' := by
  simp only [goodHead, Bool.or_eq_true, decide_eq_true_eq] at h
  rcases h with ((((((hd | rfl) | rfl) | rfl) | rfl) | rfl) | rfl) | rfl
  · exact ne_of_isDigit ']' hd (by decide)
  all_goals decide

theorem goodHead_ne_rbrace {c : Char} (h : goodHead c = true) : c ≠ '\x7d' := by
  simp only [goodHead, Bool.or_eq_true, decide_eq_true_eq] at h
  rcases h with ((((((hd | rfl) | rfl) | rfl) | rfl) | rfl) | rfl) | rfl
  · exact ne_of_isDigit '\x7d' hd (by decide)
  all_goals decide

theorem skipWs_cons_of_not_ws {c : Char} (t : List Char) (h : jsonWs c = false) :
    skipWs (c :: t) = c :: t := by
  simp [skipWs, List.dropWhile_cons, h]

theorem numStop_cons (c : Char) (l : List Char) :
    numStop (c :: l) = !(c.isDigit || decide (c = '.')) := rfl

/-! ## Digit-run lemmas -/

theorem digitChar_isDigit {n : Nat} (h : n < 10) : (digitChar n).isDigit = true := by
  interval_cases n <;> decide

theorem digitChar_val {n : Nat} (h : n < 10) : (digitChar n).toNat - 48 = n := by
  interval_cases n <;> decide

theorem natOfDigits_foldl (l : List Char) (init : Nat) :
    l.foldl (fun a c => 10 * a + (c.toNat - 48)) init
      = init * 10 ^ l.length + natOfDigits l := by
  induction l generalizing init with
  | nil => simp [natOfDigits]
  | cons c t ih =>
    simp only [List.foldl_cons, List.length_cons, natOfDigits]
    rw [ih, ih (10 * 0 + (c.toNat - 48))]
    ring

theorem natOfDigits_append (a b : List Char) :
    natOfDigits (a ++ b) = natOfDigits a * 10 ^ b.length + natOfDigits b := by
  simp only [natOfDigits, List.foldl_append]
  rw [natOfDigits_foldl b (List.foldl (fun a c => 10 * a + (c.toNat - 48)) 0 a)]
  rfl

theorem natOfDigits_replicate_zero (j : Nat) :
    natOfDigits (List.replicate j '0') = 0 := by
  induction j with
  | zero => rfl
  | succ j ih =>
    show natOfDigits ('0' :: List.replicate j '0') = 0
    · simp only [natOfDigits, List.foldl_cons]
      exact ih

theorem natDigsF_ne_nil (f n : Nat) : natDigsF (f + 1) n ≠ [] := by
  simp only [natDigsF]
  split
  · simp
  · simp

theorem natDigsF_digits (f : Nat) : ∀ n, ∀ c ∈ natDigsF f n, c.isDigit = true := by
  induction f with
  | zero => intro n c hc; simp [natDigsF] at hc
  | succ f ih =>
    intro n c hc
    simp only [natDigsF] at hc
    split at hc
    · simp only [List.mem_singleton] at hc
      subst hc
      exact digitChar_isDigit (by omega)
    · rw [List.mem_append] at hc
      rcases hc with hc | hc
      · exact ih _ c hc
      · simp only [List.mem_singleton] at hc
        subst hc
        exact digitChar_isDigit (Nat.mod_lt _ (by omega))

theorem natDigs_digits (n : Nat) : ∀ c ∈ natDigs n, c.isDigit = true :=
  natDigsF_digits (n + 1) n

theorem natDigs_ne_nil (n : Nat) : natDigs n ≠ [] := natDigsF_ne_nil n n

theorem natOfDigits_natDigsF (f : Nat) : ∀ n, n < 10 ^ f → natOfDigits (natDigsF f n) = n := by
  induction f with
  | zero =>
    intro n hn
    interval_cases n
    rfl
  | succ f ih =>
    intro n hn
    simp only [natDigsF]
    split
    · next h =>
      show 10 * 0 + ((digitChar n).toNat - 48) = n
      · rw [Nat.mul_zero, Nat.zero_add, digitChar_val h]
    · next h =>
      rw [natOfDigits_append]
      have hdiv : n / 10 < 10 ^ f := by
        rw [Nat.div_lt_iff_lt_mul (by omega)]
        calc n < 10 ^ (f + 1) := hn
        _ = 10 ^ f * 10 := by rw [Nat.pow_succ]
      rw [ih _ hdiv]
      show n / 10 * 10 ^ 1 + (10 * 0 + ((digitChar (n % 10)).toNat - 48)) = n
      · rw [digitChar_val (Nat.mod_lt _ (by omega))]
        omega

theorem natOfDigits_natDigs (n : Nat) : natOfDigits (natDigs n) = n :=
  natOfDigits_natDigsF (n + 1) n
    (Nat.lt_of_lt_of_le (Nat.lt_pow_self (by norm_num) n)
      (Nat.pow_le_pow_right (by norm_num) (Nat.le_succ n)))

/-! ## takeWhile / dropWhile over a recognized prefix -/

theorem takeWhile_all_append (p : Char → Bool) (ds rest : List Char)
    (h1 : ∀ c ∈ ds, p c = true) (h2 : ∀ c, rest.head? = some c → p c = false) :
    (ds ++ rest).takeWhile p = ds ∧ (ds ++ rest).dropWhile p = rest := by
  induction ds with
  | nil =>
    cases rest with
    | nil => exact ⟨rfl, rfl⟩
    | cons c t =>
      have hc := h2 c rfl
      simp [List.takeWhile_cons, List.dropWhile_cons, hc]
  | cons d ds ih =>
    have hd : p d = true := h1 d (List.mem_cons_self d ds)
    have ih2 := ih (fun c hc => h1 c (List.mem_cons_of_mem d hc))
    simp [List.takeWhile_cons, List.dropWhile_cons, hd, ih2.1, ih2.2]

/-! ## Number serialization round-trip -/

theorem numStop_head_digit {rest : List Char} (h : numStop rest = true) :
    ∀ c, rest.head? = some c → c.isDigit = false := by
  intro c hc
  cases rest with
  | nil => simp at hc
  | cons a t =>
    simp only [List.head?_cons, Option.some.injEq] at hc
    subst hc
    rw [numStop_cons] at h
    simp only [Bool.not_eq_eq_eq_not, Bool.not_true, Bool.or_eq_false_iff] at h
    exact h.1

theorem numStop_head_not_dot {rest : List Char} (h : numStop rest = true) :
    ∀ c, rest.head? = some c → c ≠ '.' := by
  intro c hc
  cases rest with
  | nil => simp at hc
  | cons a t =>
    simp only [List.head?_cons, Option.some.injEq] at hc
    subst hc
    rw [numStop_cons] at h
    simp only [Bool.not_eq_eq_eq_not, Bool.not_true, Bool.or_eq_false_iff,
      decide_eq_false_iff_not] at h
    exact h.2

theorem parseNumNN_digits (A rest : List Char) (hA : ∀ c ∈ A, c.isDigit = true)
    (hAne : A ≠ []) (hrest : numStop rest = true) :
    parseNumNN (A ++ rest) = some ((natOfDigits A, 1), rest) := by
  obtain ⟨hT, hD⟩ := takeWhile_all_append Char.isDigit A rest hA (numStop_head_digit hrest)
  simp only [parseNumNN]
  rw [hT, hD, if_neg (fun h => hAne (List.isEmpty_iff.mp h)),
    if_neg (fun h => numStop_head_not_dot hrest '.' h rfl)]

theorem parseNumNN_digits_dot (A B rest : List Char)
    (hA : ∀ c ∈ A, c.isDigit = true) (hAne : A ≠ [])
    (hB : ∀ c ∈ B, c.isDigit = true) (hBne : B ≠ [])
    (hrest : numStop rest = true) :
    parseNumNN (A ++ '.' :: (B ++ rest))
      = some ((natOfDigits A * 10 ^ B.length + natOfDigits B, 10 ^ B.length), rest) := by
  obtain ⟨hT, hD⟩ := takeWhile_all_append Char.isDigit A ('.' :: (B ++ rest)) hA
    (by intro c hc; simp only [List.head?_cons, Option.some.injEq] at hc; subst hc; decide)
  obtain ⟨hT2, hD2⟩ := takeWhile_all_append Char.isDigit B rest hB (numStop_head_digit hrest)
  simp only [parseNumNN]
  rw [hT, hD, if_neg (fun h => hAne (List.isEmpty_iff.mp h))]
  simp only [List.head?_cons, List.tail_cons, if_true]
  rw [hT2, hD2, if_neg (fun h => hBne (List.isEmpty_iff.mp h))]

theorem pad_facts (n d : Nat) (pad : List Char)
    (hdef : pad = List.replicate (decExp d + 1 - (natDigs (n * (10 ^ decExp d / d))).length) '0'
        ++ natDigs (n * (10 ^ decExp d / d))) :
    (∀ c ∈ pad, c.isDigit = true) ∧ decExp d + 1 ≤ pad.length ∧
      natOfDigits pad = n * (10 ^ decExp d / d) := by
  subst hdef
  refine ⟨?_, ?_, ?_⟩
  · intro c hc
    rw [List.mem_append] at hc
    rcases hc with hc | hc
    · rw [List.eq_of_mem_replicate hc]
      decide
    · exact natDigs_digits _ c hc
  · rw [List.length_append, List.length_replicate]
    have := natDigs_ne_nil (n * (10 ^ decExp d / d))
    have hlen : 0 < (natDigs (n * (10 ^ decExp d / d))).length :=
      List.length_pos.mpr this
    omega
  · rw [natOfDigits_append, natOfDigits_replicate_zero, natOfDigits_natDigs]
    simp

theorem printNumParts_eq_int (n d : Nat) (hk : decExp d = 0) :
    printNumParts n d = natDigs (n * (10 ^ decExp d / d)) := by
  simp only [printNumParts]
  rw [if_pos hk]

theorem printNumParts_eq_frac (n d : Nat) (hk : decExp d ≠ 0) :
    ∃ pad : List Char,
      pad = List.replicate (decExp d + 1 - (natDigs (n * (10 ^ decExp d / d))).length) '0'
          ++ natDigs (n * (10 ^ decExp d / d)) ∧
      printNumParts n d
        = pad.take (pad.length - decExp d) ++ '.' :: pad.drop (pad.length - decExp d) :=
  ⟨_, rfl, by simp only [printNumParts]; rw [if_neg hk]⟩

theorem printNumParts_head (n d : Nat) :
    ∃ c t, printNumParts n d = c :: t ∧ c.isDigit = true := by
  by_cases hk : decExp d = 0
  · rw [printNumParts_eq_int n d hk]
    cases hnd : natDigs (n * (10 ^ decExp d / d)) with
    | nil => exact absurd hnd (natDigs_ne_nil _)
    | cons c t =>
      refine ⟨c, t, rfl, natDigs_digits (n * (10 ^ decExp d / d)) c ?_⟩
      rw [hnd]
      exact List.mem_cons_self c t
  · obtain ⟨pad, hpaddef, hprint⟩ := printNumParts_eq_frac n d hk
    obtain ⟨hpd, hlen, -⟩ := pad_facts n d pad hpaddef
    have htl : (pad.take (pad.length - decExp d)).length = pad.length - decExp d := by
      rw [List.length_take]
      omega
    cases hA : pad.take (pad.length - decExp d) with
    | nil =>
      rw [hA] at htl
      simp at htl
      omega
    | cons c t =>
      refine ⟨c, t ++ '.' :: pad.drop (pad.length - decExp d), ?_, ?_⟩
      · rw [hprint, hA]
        rfl
      · have hmem : c ∈ pad.take (pad.length - decExp d) := by
          rw [hA]
          exact List.mem_cons_self c t
        exact hpd c (List.mem_of_mem_take hmem)

theorem parseNumNN_print (n d : Nat) (rest : List Char) (hrest : numStop rest = true) :
    parseNumNN (printNumParts n d ++ rest)
      = some ((n * (10 ^ decExp d / d), 10 ^ decExp d), rest) := by
  by_cases hk : decExp d = 0
  · rw [printNumParts_eq_int n d hk,
      parseNumNN_digits _ rest (natDigs_digits _) (natDigs_ne_nil _) hrest,
      natOfDigits_natDigs, hk]
    norm_num
  · obtain ⟨pad, hpaddef, hprint⟩ := printNumParts_eq_frac n d hk
    obtain ⟨hpd, hlen, hval⟩ := pad_facts n d pad hpaddef
    have hAdig : ∀ c ∈ pad.take (pad.length - decExp d), c.isDigit = true :=
      fun c hc => hpd c (List.mem_of_mem_take hc)
    have hBdig : ∀ c ∈ pad.drop (pad.length - decExp d), c.isDigit = true :=
      fun c hc => hpd c (List.mem_of_mem_drop hc)
    have hAlen : (pad.take (pad.length - decExp d)).length = pad.length - decExp d := by
      rw [List.length_take]
      omega
    have hBlen : (pad.drop (pad.length - decExp d)).length = decExp d := by
      rw [List.length_drop]
      omega
    have hAne : pad.take (pad.length - decExp d) ≠ [] := by
      intro h0
      rw [h0] at hAlen
      simp at hAlen
      omega
    have hBne : pad.drop (pad.length - decExp d) ≠ [] := by
      intro h0
      rw [h0] at hBlen
      simp at hBlen
      omega
    have hshape : printNumParts n d ++ rest
        = pad.take (pad.length - decExp d)
          ++ '.' :: (pad.drop (pad.length - decExp d) ++ rest) := by
      rw [hprint]
      simp [List.append_assoc]
    rw [hshape, parseNumNN_digits_dot _ _ rest hAdig hAne hBdig hBne hrest, hBlen]
    have hsum : natOfDigits (pad.take (pad.length - decExp d)) * 10 ^ decExp d
        + natOfDigits (pad.drop (pad.length - decExp d)) = n * (10 ^ decExp d / d) := by
      calc natOfDigits (pad.take (pad.length - decExp d)) * 10 ^ decExp d
            + natOfDigits (pad.drop (pad.length - decExp d))
        = natOfDigits (pad.take (pad.length - decExp d))
            * 10 ^ (pad.drop (pad.length - decExp d)).length
            + natOfDigits (pad.drop (pad.length - decExp d)) := by rw [hBlen]
      _ = natOfDigits (pad.take (pad.length - decExp d) ++ pad.drop (pad.length - decExp d)) :=
          (natOfDigits_append _ _).symm
      _ = natOfDigits pad := by rw [List.take_append_drop]
      _ = n * (10 ^ decExp d / d) := hval
    rw [hsum]

theorem mkRat_scaled (q : ℚ) (hdvd : q.den ∣ 10 ^ decExp q.den) :
    mkRat (q.num * ((10 ^ decExp q.den / q.den : Nat) : Int)) (10 ^ decExp q.den) = q := by
  have hden0 : ((q.den : ℚ)) ≠ 0 := by
    exact_mod_cast q.den_nz
  have hD0 : (((10 ^ decExp q.den : Nat) : ℚ)) ≠ 0 := by
    exact_mod_cast pow_ne_zero (decExp q.den) (by norm_num : (10 : ℕ) ≠ 0)
  have hq : (q.num : ℚ) = q * (q.den : ℚ) := (div_eq_iff hden0).mp (Rat.num_div_den q)
  rw [Rat.mkRat_eq_divInt, Rat.divInt_eq_div, div_eq_iff (by exact_mod_cast hD0)]
  rw [Int.cast_mul, Int.cast_natCast, Int.cast_natCast]
  rw [Nat.cast_div hdvd hden0, hq]
  field_simp
  rw [hq]
  ring

theorem printNum_head (q : ℚ) :
    ∃ c t, printNum q = c :: t ∧ (c.isDigit = true ∨ c = '-') := by
  simp only [printNum]
  split
  · exact ⟨'-', _, rfl, Or.inr rfl⟩
  · obtain ⟨c, t, hct, hd⟩ := printNumParts_head q.num.toNat q.den
    exact ⟨c, t, hct, Or.inl hd⟩

theorem parseNum_print (q : ℚ) (hq : finiteDec q = true) (rest : List Char)
    (hrest : numStop rest = true) :
    parseNum (printNum q ++ rest) = some (q, rest) := by
  have hdvd : q.den ∣ 10 ^ decExp q.den := of_decide_eq_true hq
  by_cases hneg : q.num < 0
  · have hp : printNum q = '-' :: printNumParts q.num.natAbs q.den := by
      simp only [printNum]
      rw [if_pos hneg]
    rw [hp, List.cons_append]
    simp only [parseNum, List.head?_cons, List.tail_cons, if_true]
    rw [parseNumNN_print q.num.natAbs q.den rest hrest]
    have harg : -((q.num.natAbs * (10 ^ decExp q.den / q.den) : ℕ) : ℤ)
        = q.num * ((10 ^ decExp q.den / q.den : ℕ) : ℤ) := by
      have habs : ((q.num.natAbs : ℤ)) = -q.num := by omega
      rw [Nat.cast_mul, habs]
      ring
    simp only [Option.map_some']
    rw [harg, mkRat_scaled q hdvd]
  · have hp : printNum q = printNumParts q.num.toNat q.den := by
      simp only [printNum]
      rw [if_neg hneg]
    obtain ⟨c, t, hct, hdig⟩ := printNumParts_head q.num.toNat q.den
    have hcm : c ≠ '-' := ne_of_isDigit '-' hdig (by decide)
    rw [hp, hct, List.cons_append]
    simp only [parseNum, List.head?_cons]
    rw [if_neg (by simp [hcm]), ← List.cons_append, ← hct,
      parseNumNN_print q.num.toNat q.den rest hrest]
    have harg : ((q.num.toNat * (10 ^ decExp q.den / q.den) : ℕ) : ℤ)
        = q.num * ((10 ^ decExp q.den / q.den : ℕ) : ℤ) := by
      have htn : ((q.num.toNat : ℤ)) = q.num := Int.toNat_of_nonneg (not_lt.mp hneg)
      rw [Nat.cast_mul, htn]
    simp only [Option.map_some']
    rw [harg, mkRat_scaled q hdvd]

/-! ## String serialization round-trip -/

theorem parseStrBody_escape (s rest : List Char) :
    parseStrBody (escapeL s ++ '"' :: rest) = some (s, rest) := by
  induction s with
  | nil =>
    show parseStrBody ('"' :: rest) = some ([], rest)
    rw [parseStrBody.eq_def]
    simp
  | cons c t ih =>
    show parseStrBody ((escChar c ++ escapeL t) ++ '"' :: rest) = some (c :: t, rest)
    rw [List.append_assoc]
    by_cases h1 : c = '"'
    · subst h1
      rw [show escChar '"' = ['\\', '"'] from rfl, List.cons_append, List.cons_append,
        parseStrBody.eq_def]
      simp [unescape, ih]
    by_cases h2 : c = '\\'
    · subst h2
      rw [show escChar '\\' = ['\\', '\\'] from rfl, List.cons_append, List.cons_append,
        parseStrBody.eq_def]
      simp [unescape, ih]
    by_cases h3 : c = '\n'
    · subst h3
      rw [show escChar '\n' = ['\\', 'n'] from rfl, List.cons_append, List.cons_append,
        parseStrBody.eq_def]
      simp [unescape, ih]
    by_cases h4 : c = '\t'
    · subst h4
      rw [show escChar '\t' = ['\\', 't'] from rfl, List.cons_append, List.cons_append,
        parseStrBody.eq_def]
      simp [unescape, ih]
    by_cases h5 : c = '\r'
    · subst h5
      rw [show escChar '\r' = ['\\', 'r'] from rfl, List.cons_append, List.cons_append,
        parseStrBody.eq_def]
      simp [unescape, ih]
    by_cases h6 : c = '\x08'
    · subst h6
      rw [show escChar '\x08' = ['\\', 'b'] from rfl, List.cons_append, List.cons_append,
        parseStrBody.eq_def]
      simp [unescape, ih]
    by_cases h7 : c = '\x0c'
    · subst h7
      rw [show escChar '\x0c' = ['\\', 'f'] from rfl, List.cons_append, List.cons_append,
        parseStrBody.eq_def]
      simp [unescape, ih]
    · rw [show escChar c = [c] by simp [escChar, h1, h2, h3, h4, h5, h6, h7],
        List.cons_append, List.nil_append, parseStrBody.eq_def]
      simp [h1, h2, ih]

/-! ## Head and whitespace transport for the parser -/

theorem printVal_head (v : JValue) : ∃ c t, printVal v = c :: t ∧ goodHead c = true := by
  cases v with
  | null => exact ⟨'n', _, rfl, by decide⟩
  | bool b =>
    cases b with
    | true => exact ⟨'t', _, rfl, by decide⟩
    | false => exact ⟨'f', _, rfl, by decide⟩
  | num q =>
    obtain ⟨c, t, hct, hcd⟩ := printNum_head q
    refine ⟨c, t, hct, ?_⟩
    rcases hcd with hd | rfl
    · simp [goodHead, hd]
    · decide
  | str s => exact ⟨'"', _, rfl, by decide⟩
  | arr xs => exact ⟨'[', _, rfl, by decide⟩
  | obj xs => exact ⟨'\x7b', _, rfl, by decide⟩

theorem skipWs_printVal (v : JValue) (l : List Char) :
    skipWs (printVal v ++ l) = printVal v ++ l := by
  obtain ⟨c, t, hct, hgood⟩ := printVal_head v
  rw [hct, List.cons_append, skipWs_cons_of_not_ws _ (goodHead_not_jsonWs hgood)]

theorem skipWs_cons_ws (X : List Char) : skipWs (' ' :: X) = skipWs X := by
  simp only [skipWs, List.dropWhile_cons]
  norm_num [jsonWs]

theorem parseVal_ws (g : Nat) (X : List Char) : parseVal g (' ' :: X) = parseVal g X := by
  cases g with
  | zero => rfl
  | succ g =>
    simp only [parseVal, skipWs_cons_ws]

theorem parseItems_ws (f : Nat) (X : List Char) :
    parseItems f (' ' :: X) = parseItems f X := by
  cases f with
  | zero => rfl
  | succ f => simp only [parseItems, parseVal_ws]

theorem parseMembers_ws (f : Nat) (X : List Char) :
    parseMembers f (' ' :: X) = parseMembers f X := by
  cases f with
  | zero => rfl
  | succ f => simp only [parseMembers, skipWs_cons_ws]

/-! ## Leaf cases of the parser round-trip -/

theorem parseVal_null (f : Nat) (rest : List Char) :
    parseVal (f + 1) (printVal .null ++ rest) = some (.null, rest) := by
  simp [parseVal, printVal, kwNull, kwTrue, kwFalse, skipWs, List.dropWhile_cons, jsonWs]

theorem parseVal_bool (f : Nat) (b : Bool) (rest : List Char) :
    parseVal (f + 1) (printVal (.bool b) ++ rest) = some (.bool b, rest) := by
  cases b with
  | true => simp [parseVal, printVal, kwNull, kwTrue, kwFalse, skipWs, List.dropWhile_cons, jsonWs]
  | false => simp [parseVal, printVal, kwNull, kwTrue, kwFalse, skipWs, List.dropWhile_cons, jsonWs]

theorem parseVal_arr_nil (f : Nat) (rest : List Char) :
    parseVal (f + 1) (printVal (.arr []) ++ rest) = some (.arr [], rest) := by
  simp [parseVal, printVal, printItems, kwNull, kwTrue, kwFalse, skipWs,
    List.dropWhile_cons, jsonWs]

theorem parseVal_obj_nil (f : Nat) (rest : List Char) :
    parseVal (f + 1) (printVal (.obj []) ++ rest) = some (.obj [], rest) := by
  simp [parseVal, printVal, printFields, kwNull, kwTrue, kwFalse, skipWs,
    List.dropWhile_cons, jsonWs]

theorem parseVal_str (f : Nat) (s : String) (rest : List Char) :
    parseVal (f + 1) (printVal (.str s) ++ rest) = some (.str s, rest) := by
  simp only [printVal, printStr, List.cons_append, List.append_assoc]
  simp [parseVal, kwNull, kwTrue, kwFalse, skipWs, List.dropWhile_cons, jsonWs,
    parseStrBody_escape]

theorem printVal_length_pos (v : JValue) : 0 < (printVal v).length := by
  obtain ⟨c, t, hct, -⟩ := printVal_head v
  rw [hct]
  simp

theorem printItems_head (x : JValue) (xs : List JValue) :
    ∃ c t, printItems (x :: xs) = c :: t ∧ goodHead c = true := by
  obtain ⟨c, t, hct, hgood⟩ := printVal_head x
  cases xs with
  | nil => exact ⟨c, t, hct, hgood⟩
  | cons y ys =>
    refine ⟨c, t ++ ',' :: ' ' :: printItems (y :: ys), ?_, hgood⟩
    show printVal x ++ ',' :: ' ' :: printItems (y :: ys) = _
    rw [hct, List.cons_append]

theorem printFields_head (k : String) (v : JValue) (ms : List (String × JValue)) :
    ∃ t, printFields ((k, v) :: ms) = '"' :: t := by
  cases ms with
  | nil =>
    exact ⟨escapeL k.data ++ ('"' :: (':' :: ' ' :: printVal v)), by
      show printStr k.data ++ ':' :: ' ' :: printVal v = _
      simp [printStr, List.append_assoc]⟩
  | cons m ms =>
    exact ⟨escapeL k.data
        ++ ('"' :: (':' :: ' ' :: (printVal v ++ ',' :: ' ' :: printFields (m :: ms)))), by
      show printStr k.data ++ ':' :: ' ' :: printVal v ++ ',' :: ' ' :: printFields (m :: ms) = _
      simp [printStr, List.append_assoc]⟩

theorem skipWs_rbracket (X : List Char) : skipWs (']' :: X) = ']' :: X :=
  skipWs_cons_of_not_ws X (by decide)

theorem skipWs_rbrace (X : List Char) : skipWs ('\x7d' :: X) = '\x7d' :: X :=
  skipWs_cons_of_not_ws X (by decide)

theorem skipWs_comma (X : List Char) : skipWs (',' :: X) = ',' :: X :=
  skipWs_cons_of_not_ws X (by decide)

theorem skipWs_colon (X : List Char) : skipWs (':' :: X) = ':' :: X :=
  skipWs_cons_of_not_ws X (by decide)

theorem skipWs_quote (X : List Char) : skipWs ('"' :: X) = '"' :: X :=
  skipWs_cons_of_not_ws X (by decide)

theorem parseVal_num (f : Nat) (q : ℚ) (hq : finiteDec q = true) (rest : List Char)
    (hrest : numStop rest = true) :
    parseVal (f + 1) (printNum q ++ rest) = some (.num q, rest) := by
  obtain ⟨c, t, hct, hcd⟩ := printNum_head q
  have hfacts : c ≠ 'n' ∧ c ≠ 't' ∧ c ≠ 'f' ∧ c ≠ '"' ∧ c ≠ '[' ∧ c ≠ '\x7b'
      ∧ jsonWs c = false := by
    rcases hcd with hd | rfl
    · exact ⟨ne_of_isDigit 'n' hd (by decide), ne_of_isDigit 't' hd (by decide),
        ne_of_isDigit 'f' hd (by decide), ne_of_isDigit '"' hd (by decide),
        ne_of_isDigit '[' hd (by decide), ne_of_isDigit '\x7b' hd (by decide),
        isDigit_not_jsonWs hd⟩
    · exact ⟨by decide, by decide, by decide, by decide, by decide, by decide, by decide⟩
  obtain ⟨hn, ht, hf, hq2, hlb, hob, hws⟩ := hfacts
  rw [hct, List.cons_append]
  simp only [parseVal]
  rw [skipWs_cons_of_not_ws _ hws]
  rw [if_neg (by simp [kwNull, List.take, hn]), if_neg (by simp [kwTrue, List.take, ht]),
    if_neg (by simp [kwFalse, List.take, hf]), if_neg (by simp [hq2]),
    if_neg (by simp [hlb]), if_neg (by simp [hob]), ← List.cons_append, ← hct,
    parseNum_print q hq rest hrest]

/-! ## The parser inverts the serializer -/

theorem parse_print : ∀ f : Nat,
    (∀ v rest, (printVal v).length ≤ f → decOKVal v = true → numStop rest = true →
        parseVal f (printVal v ++ rest) = some (v, rest)) ∧
    (∀ xs rest, xs ≠ [] → (printItems xs).length < f → decOKList xs = true →
        parseItems f (printItems xs ++ ']' :: rest) = some (xs, rest)) ∧
    (∀ ms rest, ms ≠ [] → (printFields ms).length < f → decOKFields ms = true →
        parseMembers f (printFields ms ++ '\x7d' :: rest) = some (ms, rest)) := by
  intro f
  induction f with
  | zero =>
    refine ⟨fun v rest hlen _ _ => absurd hlen ?_, fun xs rest hne hlen _ => ?_,
      fun ms rest hne hlen _ => ?_⟩
    · have := printVal_length_pos v
      omega
    · omega
    · omega
  | succ f IH =>
    obtain ⟨IHv, IHi, IHm⟩ := IH
    refine ⟨?_, ?_, ?_⟩
    · intro v rest hlen hok hrest
      cases v with
      | null => exact parseVal_null f rest
      | bool b => exact parseVal_bool f b rest
      | num q => exact parseVal_num f q hok rest hrest
      | str s => exact parseVal_str f s rest
      | arr xs =>
        cases xs with
        | nil => exact parseVal_arr_nil f rest
        | cons x xs =>
          have hlen2 : (printItems (x :: xs)).length < f := by
            simp only [printVal, List.length_cons, List.length_append,
              List.length_singleton] at hlen
            omega
          have hshape : printVal (.arr (x :: xs)) ++ rest
              = '[' :: (printItems (x :: xs) ++ ']' :: rest) := by
            simp [printVal, List.append_assoc]
          rw [hshape]
          obtain ⟨c, t, hct, hgood⟩ := printItems_head x xs
          simp only [parseVal]
          rw [skipWs_cons_of_not_ws _ (by decide : jsonWs '[' = false)]
          rw [if_neg (by simp [kwNull, List.take]), if_neg (by simp [kwTrue, List.take]),
            if_neg (by simp [kwFalse, List.take])]
          simp only [List.head?_cons, List.tail_cons, if_true]
          rw [hct, List.cons_append,
            skipWs_cons_of_not_ws _ (goodHead_not_jsonWs hgood)]
          have hne : ¬ ((c :: (t ++ ']' :: rest)).head? = some ']') := by
            simp [goodHead_ne_rbrack hgood]
          rw [if_neg hne, ← List.cons_append, ← hct,
            IHi (x :: xs) rest (by simp) hlen2 hok, if_neg (by decide)]
      | obj ms =>
        cases ms with
        | nil => exact parseVal_obj_nil f rest
        | cons m ms =>
          obtain ⟨k, v2⟩ := m
          have hlen2 : (printFields ((k, v2) :: ms)).length < f := by
            simp only [printVal, List.length_cons, List.length_append,
              List.length_singleton] at hlen
            omega
          have hshape : printVal (.obj ((k, v2) :: ms)) ++ rest
              = '\x7b' :: (printFields ((k, v2) :: ms) ++ '\x7d' :: rest) := by
            simp [printVal, List.append_assoc]
          rw [hshape]
          obtain ⟨t, hct⟩ := printFields_head k v2 ms
          simp only [parseVal]
          rw [skipWs_cons_of_not_ws _ (by decide : jsonWs '\x7b' = false)]
          rw [if_neg (by simp [kwNull, List.take]), if_neg (by simp [kwTrue, List.take]),
            if_neg (by simp [kwFalse, List.take])]
          simp only [List.head?_cons, List.tail_cons, if_true]
          rw [hct, List.cons_append, skipWs_quote]
          have hne : ¬ (('"' :: (t ++ '\x7d' :: rest)).head? = some '\x7d') := by
            simp
          rw [if_neg hne, ← List.cons_append, ← hct,
            IHm ((k, v2) :: ms) rest (by simp) hlen2 hok, if_neg (by decide),
            if_neg (by decide)]
    · intro xs rest hne hlen hok
      cases xs with
      | nil => exact absurd rfl hne
      | cons x xs =>
        have hokx : decOKVal x = true ∧ decOKList xs = true := by
          simpa [decOKList, Bool.and_eq_true] using hok
        cases xs with
        | nil =>
          have hlenx : (printVal x).length ≤ f := by
            simp only [printItems] at hlen
            omega
          show parseItems (f + 1) (printVal x ++ ']' :: rest) = some ([x], rest)
          simp only [parseItems]
          rw [IHv x (']' :: rest) hlenx hokx.1 rfl]
          simp [skipWs_rbracket]
        | cons y ys =>
          have hlenx : (printVal x).length ≤ f ∧ (printItems (y :: ys)).length < f := by
            have : printItems (x :: y :: ys)
                = printVal x ++ ',' :: ' ' :: printItems (y :: ys) := rfl
            rw [this] at hlen
            simp only [List.length_append, List.length_cons] at hlen
            constructor <;> omega
          have hshape : printItems (x :: y :: ys) ++ ']' :: rest
              = printVal x ++ (',' :: ' ' :: (printItems (y :: ys) ++ ']' :: rest)) := by
            show (printVal x ++ ',' :: ' ' :: printItems (y :: ys)) ++ ']' :: rest = _
            simp [List.append_assoc]
          rw [hshape]
          simp only [parseItems]
          rw [IHv x (',' :: ' ' :: (printItems (y :: ys) ++ ']' :: rest)) hlenx.1 hokx.1 rfl]
          simp only [skipWs_comma]
          rw [parseItems_ws, IHi (y :: ys) rest (by simp) hlenx.2 hokx.2]
    · intro ms rest hne hlen hok
      cases ms with
      | nil => exact absurd rfl hne
      | cons m ms =>
        obtain ⟨k, v⟩ := m
        have hokx : decOKVal v = true ∧ decOKFields ms = true := by
          simpa [decOKFields, Bool.and_eq_true] using hok
        cases ms with
        | nil =>
          have hlenv : (printVal v).length ≤ f := by
            have : printFields [(k, v)] = printStr k.data ++ ':' :: ' ' :: printVal v := rfl
            rw [this] at hlen
            simp only [List.length_append, List.length_cons] at hlen
            omega
          have hshape : printFields [(k, v)] ++ '\x7d' :: rest
              = '"' :: (escapeL k.data
                  ++ ('"' :: (':' :: ' ' :: (printVal v ++ '\x7d' :: rest)))) := by
            show (printStr k.data ++ ':' :: ' ' :: printVal v) ++ '\x7d' :: rest = _
            simp [printStr, List.append_assoc]
          rw [hshape]
          simp only [parseMembers, skipWs_quote]
          rw [parseStrBody_escape k.data (':' :: ' ' :: (printVal v ++ '\x7d' :: rest))]
          simp only [skipWs_colon]
          rw [parseVal_ws, IHv v ('\x7d' :: rest) hlenv hokx.1 rfl]
          simp [skipWs_rbrace]
        | cons m2 ms2 =>
          have hlenv : (printVal v).length ≤ f ∧ (printFields (m2 :: ms2)).length < f := by
            have : printFields ((k, v) :: m2 :: ms2)
                = printStr k.data ++ ':' :: ' ' :: printVal v
                    ++ ',' :: ' ' :: printFields (m2 :: ms2) := rfl
            rw [this] at hlen
            simp only [List.length_append, List.length_cons] at hlen
            constructor <;> omega
          have hshape : printFields ((k, v) :: m2 :: ms2) ++ '\x7d' :: rest
              = '"' :: (escapeL k.data ++ ('"' :: (':' :: ' ' :: (printVal v
                  ++ (',' :: ' ' :: (printFields (m2 :: ms2) ++ '\x7d' :: rest)))))) := by
            show (printStr k.data ++ ':' :: ' ' :: printVal v
                ++ ',' :: ' ' :: printFields (m2 :: ms2)) ++ '\x7d' :: rest = _
            simp [printStr, List.append_assoc]
          rw [hshape]
          simp only [parseMembers, skipWs_quote]
          rw [parseStrBody_escape k.data
            (':' :: ' ' :: (printVal v ++ (',' :: ' ' :: (printFields (m2 :: ms2)
              ++ '\x7d' :: rest))))]
          simp only [skipWs_colon]
          rw [parseVal_ws, IHv v (',' :: ' ' :: (printFields (m2 :: ms2) ++ '\x7d' :: rest))
            hlenv.1 hokx.1 rfl]
          simp only [skipWs_comma]
          rw [parseMembers_ws, IHm (m2 :: ms2) rest (by simp) hlenv.2 hokx.2]

theorem jsonLoads_print (v : JValue) (hok : decOKVal v = true) :
    jsonLoads (printVal v) = some v := by
  have h := (parse_print ((printVal v).length + 1)).1 v [] (Nat.le_succ _) hok rfl
  rw [List.append_nil] at h
  simp only [jsonLoads]
  rw [h]
  rfl

/-! ## `safe_json_loads` is the identity pipeline on serialized objects -/

theorem trimL_wrapped (mid : List Char) :
    trimL ('\x7b' :: (mid ++ ['\x7d'])) = '\x7b' :: (mid ++ ['\x7d']) := by
  have hd1 : List.dropWhile pyWs ('\x7b' :: (mid ++ ['\x7d'])) = '\x7b' :: (mid ++ ['\x7d']) := by
    simp [List.dropWhile_cons, pyWs]
  have hrev : ('\x7b' :: (mid ++ ['\x7d'])).reverse = '\x7d' :: (mid.reverse ++ ['\x7b']) := by
    simp
  have hd2 : List.dropWhile pyWs ('\x7d' :: (mid.reverse ++ ['\x7b']))
      = '\x7d' :: (mid.reverse ++ ['\x7b']) := by
    simp [List.dropWhile_cons, pyWs]
  simp only [trimL]
  rw [hd1, hrev, hd2, ← hrev, List.reverse_reverse]

theorem braceSlice_wrapped (mid : List Char) :
    braceSlice ('\x7b' :: (mid ++ ['\x7d'])) = '\x7b' :: (mid ++ ['\x7d']) := by
  have hcon : (('\x7b' :: (mid ++ ['\x7d'])).contains '\x7b'
      && ('\x7b' :: (mid ++ ['\x7d'])).contains '\x7d') = true := by
    simp
  have h1 : ('\x7b' :: (mid ++ ['\x7d'])).findIdx (· = '\x7b') = 0 := by
    simp [List.findIdx_cons]
  have h2 : ('\x7b' :: (mid ++ ['\x7d'])).reverse.findIdx (· = '\x7d') = 0 := by
    have hrev : ('\x7b' :: (mid ++ ['\x7d'])).reverse = '\x7d' :: (mid.reverse ++ ['\x7b']) := by
      simp
    rw [hrev]
    simp [List.findIdx_cons]
  have hlen : ('\x7b' :: (mid ++ ['\x7d'])).length = mid.length + 2 := by
    simp
  simp only [braceSlice]
  rw [if_pos hcon, h1, h2, hlen]
  have harith : mid.length + 2 - 1 - 0 + 1 = mid.length + 2 := by
    omega
  rw [harith, List.drop_zero, List.take_of_length_le (by simp)]

theorem safe_json_loads_dumps_obj (fields : List (String × JValue))
    (hok : decOKFields fields = true) :
    safe_json_loads (dumps (.obj fields)) = some (.obj fields) := by
  show safeJsonLoadsL (printVal (.obj fields)) = some (.obj fields)
  have hpv : printVal (.obj fields) = '\x7b' :: (printFields fields ++ ['\x7d']) := rfl
  have hfence : ((('\x7b' :: (printFields fields ++ ['\x7d'])).take 3
      == [backtick, backtick, backtick]) = false) := by
    simp [List.take, backtick]
  simp only [safeJsonLoadsL]
  rw [hpv, trimL_wrapped, hfence]
  simp only [Bool.false_eq_true, if_false]
  rw [braceSlice_wrapped, ← hpv,
    jsonLoads_print (.obj fields) (show decOKVal (.obj fields) = true from hok)]

/-- C4: `safe_json_loads` applied to the canonical serialization of a
structurally valid JSON object returns exactly that object; here
"structurally valid" additionally records that every number of the object is
finite-decimal, which is true of every object Python can serialize. -/
theorem safe_json_loads_dumps_roundtrip (x : JValue) (hobj : x.isObj = true)
    (hok : decOKVal x = true) :
    safe_json_loads (dumps x) = some x := by
  cases x with
  | obj fields => exact safe_json_loads_dumps_obj fields hok
  | null => simp [JValue.isObj] at hobj
  | bool b => simp [JValue.isObj] at hobj
  | num q => simp [JValue.isObj] at hobj
  | str s => simp [JValue.isObj] at hobj
  | arr xs => simp [JValue.isObj] at hobj

/-- Witness for C4 at a concrete object exercising nesting, escapes, booleans,
null, and integer, fractional and negative numbers. -/
theorem safe_json_loads_dumps_roundtrip_witness :
    safe_json_loads (dumps (JValue.obj [("a", JValue.num 1),
        ("b", JValue.arr [JValue.str "x\"y", JValue.null, JValue.bool true,
          JValue.num (mkRat 25 10), JValue.num (mkRat (-33) 100)])]))
      = some (JValue.obj [("a", JValue.num 1),
        ("b", JValue.arr [JValue.str "x\"y", JValue.null, JValue.bool true,
          JValue.num (mkRat 25 10), JValue.num (mkRat (-33) 100)])]) :=
  safe_json_loads_dumps_roundtrip _ rfl (by decide)

end ExtractProposal
